import Mathlib

/-!
Shallow embedding of the Investor-Shiksha AI services core
(`src/ai-services/services/sentiment.py` and
`src/ai-services/services/recommendation.py`) together with theorems
settling the specification claims about the sentiment ensemble engine and
the recommendation ranking engine.

Numeric scores and confidences are modelled as exact rationals (the Python
code uses floats; none of the claims hinge on rounding behaviour).
Text handled character-by-character is modelled as `List Char`; external
tokenizers (`word_tokenize`, `sent_tokenize`) are treated as black boxes,
so the functions that consume their output take the token / sentence lists
as arguments.
-/

namespace InvestorShiksha

/-! ## Sentiment data model -/

/-- The canonical three-class sentiment label space. -/
inductive Sentiment where
  | positive
  | negative
  | neutral
deriving DecidableEq, Repr

/-- A per-adapter result: the `'sentiment'` and `'confidence'` entries of the
dict each analyzer returns. -/
structure AdapterOut where
  sentiment : Sentiment
  confidence : ℚ
deriving DecidableEq, Repr

/-! ## Rule-based adapter (`SentimentService._analyze_with_rules`,
`sentiment.py` lines 234-277, keyword lists from `_init_financial_keywords`,
lines 66-83). -/

def positive_keywords : List String :=
  ["profit", "gain", "growth", "bull", "rise", "increase", "positive",
   "strong", "beat", "exceed", "outperform", "surge", "rally", "boom",
   "bullish", "uptrend", "breakthrough", "milestone", "achievement"]

def negative_keywords : List String :=
  ["loss", "decline", "bear", "fall", "decrease", "negative", "weak",
   "miss", "underperform", "crash", "plunge", "recession", "bearish",
   "downtrend", "crisis", "risk", "concern", "worry", "trouble"]

def neutral_keywords : List String :=
  ["stable", "unchanged", "flat", "sideways", "consolidate", "range",
   "maintain", "steady", "consistent", "regular", "normal"]

/-- `sum(1 for word in words if word in keyword_list)`.  (Line 240 of the
source spells the negative count with a redundant duplicated filter
`if word in words`, which is always true, so all three counts reduce to this
same form.) -/
def countKeywords (kws : List String) (words : List String) : ℕ :=
  (words.filter (fun w => kws.contains w)).length

/-- `_analyze_with_rules`.  The argument is the token list
`word_tokenize(text.lower())`; tokenization itself is an external call. -/
def analyzeWithRules (words : List String) : AdapterOut :=
  let positive_count := countKeywords positive_keywords words
  let negative_count := countKeywords negative_keywords words
  let neutral_count := countKeywords neutral_keywords words
  let total_sentiment_words := positive_count + negative_count + neutral_count
  if total_sentiment_words = 0 then ⟨.neutral, 1/2⟩
  else
    let pos_score : ℚ := (positive_count : ℚ) / (total_sentiment_words : ℚ)
    let neg_score : ℚ := (negative_count : ℚ) / (total_sentiment_words : ℚ)
    let neu_score : ℚ := (neutral_count : ℚ) / (total_sentiment_words : ℚ)
    if pos_score > neg_score ∧ pos_score > neu_score then ⟨.positive, pos_score⟩
    else if neg_score > pos_score ∧ neg_score > neu_score then ⟨.negative, neg_score⟩
    else ⟨.neutral, max neu_score (1/2)⟩

/-! ## Ensemble combiner (`SentimentService._create_ensemble_result`,
`sentiment.py` lines 279-329). -/

/-- The `results` dict at the point `_create_ensemble_result` is called:
at most the four adapter keys `vader`, `finbert`, `general`, `rule_based`,
each present or absent. -/
structure AdapterResults where
  vader : Option AdapterOut
  finbert : Option AdapterOut
  general : Option AdapterOut
  rule_based : Option AdapterOut
deriving DecidableEq, Repr

/-- The `weights` dict (lines 294-299) together with the `.get(model, 0.25)`
default (line 307). -/
def ensembleWeight : String → ℚ
  | "finbert" => 2/5
  | "vader" => 1/4
  | "general" => 1/5
  | "rule_based" => 3/20
  | _ => 1/4

/-- The iteration order `['vader', 'finbert', 'general', 'rule_based']`
used by both loops of `_create_ensemble_result` (lines 285, 305), which is
also the insertion order of the `results` dict in `analyze_sentiment`. -/
def modelOrder (r : AdapterResults) : List (String × Option AdapterOut) :=
  [("vader", r.vader), ("finbert", r.finbert), ("general", r.general),
   ("rule_based", r.rule_based)]

/-- The models present in `results` (in iteration order).  Every adapter
result dict carries a `'sentiment'` key, so the guard of the first loop
(`'sentiment' in results[model]`) and of the second (`model in results`)
select the same models. -/
def presentModels (r : AdapterResults) : List (String × AdapterOut) :=
  (modelOrder r).filterMap (fun p => p.2.map (fun o => (p.1, o)))

/-- `sentiment_scores[s]` after the accumulation loop (line 311):
`score[label] += weight * confidence` for every present model reporting
label `s`. -/
def sentimentScore (r : AdapterResults) (s : Sentiment) : ℚ :=
  ((presentModels r).filter (fun p => p.2.sentiment = s)).foldl
    (fun acc p => acc + ensembleWeight p.1 * p.2.confidence) 0

/-- `total_weight` after the accumulation loop (line 312). -/
def totalWeight (r : AdapterResults) : ℚ :=
  (presentModels r).foldl (fun acc p => acc + ensembleWeight p.1) 0

/-- The dict returned by `_create_ensemble_result`: either the bare
total-failure fallback `{'sentiment': 'neutral', 'confidence': 0.5}`
(line 291, all extra fields absent) or the full verdict with normalized
`scores` (positive, negative, neutral), `models_used` and `total_weight`. -/
structure EnsembleOut where
  sentiment : Sentiment
  confidence : ℚ
  scores : Option (ℚ × ℚ × ℚ)
  models_used : Option (List String)
  total_weight : Option ℚ
deriving DecidableEq, Repr

/-- `_create_ensemble_result`.  `max(sentiment_scores, key=sentiment_scores.get)`
returns the first key attaining the maximum in dict insertion order
`positive, negative, neutral`, which the nested conditional reproduces. -/
def createEnsembleResult (r : AdapterResults) : EnsembleOut :=
  if presentModels r = [] then ⟨.neutral, 1/2, none, none, none⟩
  else
    let tw := totalWeight r
    let nPos := if 0 < tw then sentimentScore r .positive / tw else sentimentScore r .positive
    let nNeg := if 0 < tw then sentimentScore r .negative / tw else sentimentScore r .negative
    let nNeu := if 0 < tw then sentimentScore r .neutral / tw else sentimentScore r .neutral
    let finalSentiment : Sentiment :=
      if nNeg ≤ nPos ∧ nNeu ≤ nPos then .positive
      else if nNeu ≤ nNeg then .negative
      else .neutral
    let finalConfidence :=
      match finalSentiment with
      | .positive => nPos
      | .negative => nNeg
      | .neutral => nNeu
    ⟨finalSentiment, finalConfidence, some (nPos, nNeg, nNeu),
     some ((presentModels r).map Prod.fst), some tw⟩

/-! ## Text chunking (`SentimentService._split_text`, `sentiment.py`
lines 356-373).  Text is modelled as `List Char`; the external
`sent_tokenize(text)` call is modelled by passing the sentence list as an
argument alongside the raw text. -/

/-- Python `str.strip()`: remove leading and trailing whitespace. -/
def stripEnds (l : List Char) : List Char :=
  ((l.dropWhile Char.isWhitespace).reverse.dropWhile Char.isWhitespace).reverse

/-- The sentence-packing loop of `_split_text`: `current` is
`current_chunk`; emitted chunks are produced in order.  The admission test
`len(current_chunk + sentence) <= max_length` does not count the joining
space added on line 364. -/
def splitGo (maxLength : ℕ) : List (List Char) → List Char → List (List Char)
  | [], current => if current = [] then [] else [stripEnds current]
  | s :: rest, current =>
    if (current ++ s).length ≤ maxLength then
      splitGo maxLength rest (if current = [] then s else current ++ ' ' :: s)
    else
      if current = [] then splitGo maxLength rest s
      else stripEnds current :: splitGo maxLength rest s

/-- `_split_text`, including the `chunks if chunks else [text[:max_length]]`
fallback on line 373. -/
def splitText (text : List Char) (sentences : List (List Char)) (maxLength : ℕ) :
    List (List Char) :=
  let chunks := splitGo maxLength sentences []
  if chunks = [] then [text.take maxLength] else chunks

/-! ## Candidate scoring (`RecommendationService._calculate_course_score`,
`recommendation.py` lines 220-265, and `_calculate_news_score`,
lines 267-299). -/

/-- The course row fields consumed by `_calculate_course_score`.
`days_old` stands for `(datetime.now() - course['created_at']).days` when
`created_at` is truthy. -/
structure CourseRow where
  category : String
  level : String
  avg_rating : Option ℚ
  review_count : Option ℕ
  days_old : Option ℤ
  language : Option String
deriving DecidableEq, Repr

/-- The user-profile fields consumed by the course scorer. -/
structure UserProfileInfo where
  preferred_categories : List String
  skill_level : String
deriving DecidableEq, Repr

/-- The request preferences consumed by the course scorer
(`preferences.get('preferred_language')`). -/
structure Preferences where
  preferred_language : Option String
deriving DecidableEq, Repr

/-- `level_mapping = {'beginner': 1, 'intermediate': 2, 'advanced': 3}` with
`.get(x, 1)` default. -/
def levelValue : String → ℕ
  | "beginner" => 1
  | "intermediate" => 2
  | "advanced" => 3
  | _ => 1

/-- `_calculate_course_score`.  Python `user_level - 1` stays in `{0, 1, 2}`
since `user_level ∈ {1, 2, 3}`, so natural subtraction is exact.  The
language bonus fires when the two `.get` results are equal, including the
case where both are absent (`None == None`). -/
def calculateCourseScore (course : CourseRow) (profile : UserProfileInfo)
    (preferences : Preferences) : ℚ :=
  let categoryBonus : ℚ :=
    if course.category ∈ profile.preferred_categories then 3/10 else 0
  let user_level := levelValue profile.skill_level
  let course_level := levelValue course.level
  let levelBonus : ℚ :=
    if course_level = user_level then 1/4
    else if course_level = user_level + 1 then 3/20
    else if course_level = user_level - 1 then 1/10
    else 0
  let rating := course.avg_rating.getD 0
  let review_count : ℚ := (course.review_count.getD 0 : ℕ)
  let ratingBonus := rating / 5 * (1/5)
  let popularityBonus := min (review_count / 100) (1/10)
  let recencyBonus : ℚ :=
    match course.days_old with
    | some d => if d < 30 then 1/10 else if d < 90 then 1/20 else 0
    | none => 0
  let languageBonus : ℚ :=
    if preferences.preferred_language = course.language then 1/10 else 0
  min (categoryBonus + levelBonus + ratingBonus + popularityBonus +
       recencyBonus + languageBonus) 1

/-- The news row fields consumed by `_calculate_news_score`.  `hours_old`
stands for `(datetime.now() - article['published_at']).total_seconds()/3600`
when `published_at` is truthy. -/
structure NewsArticle where
  title : List Char
  summary : List Char
  category : String
  sentiment : Option String
  hours_old : Option ℚ
deriving DecidableEq, Repr

/-- `_calculate_news_score`.  The per-interest loop adds `0.3` once for each
interest whose lowercase form occurs as a substring of the lowercase
`title summary` text, i.e. `0.3` times the number of matching interests. -/
def calculateNewsScore (article : NewsArticle) (user_interests : List (List Char)) : ℚ :=
  let article_text := (article.title ++ ' ' :: article.summary).map Char.toLower
  let interestBonus : ℚ :=
    ((user_interests.filter
      (fun i => decide ((i.map Char.toLower) <:+: article_text))).length : ℕ) * (3/10)
  let categoryBonus : ℚ :=
    if article.category ∈ ["stocks", "mutual_funds", "trading", "investment"]
    then 1/5 else 0
  let sentimentBonus : ℚ :=
    if article.sentiment = some "positive" then 1/10
    else if article.sentiment = some "neutral" then 1/20
    else 0
  let recencyBonus : ℚ :=
    match article.hours_old with
    | some h => if h < 24 then 1/5 else if h < 72 then 1/10 else 0
    | none => 0
  min (interestBonus + categoryBonus + sentimentBonus + recencyBonus) 1

/-! ## Ranking (`RecommendationService._rank_recommendations`,
`recommendation.py` lines 301-324) and the surrounding
`get_recommendations` flow (lines 32-67, 127-174, 176-218). -/

/-- The candidate fields consumed by the ranker. -/
structure Candidate where
  item_id : ℕ
  item_type : String
  score : ℚ
deriving DecidableEq, Repr

/-- Descending-score comparison used for `sorted(..., key=lambda x: x['score'],
reverse=True)`.  Insertion sort with this relation is stable in the same
sense as Python `sorted` with `reverse=True`: candidates with equal scores
keep their original relative order. -/
def scoreGE (a b : Candidate) : Prop := b.score ≤ a.score

instance : DecidableRel scoreGE := fun a b => inferInstanceAs (Decidable (b.score ≤ a.score))

instance : IsTotal Candidate scoreGE := ⟨fun a b => le_total b.score a.score⟩

instance : IsTrans Candidate scoreGE := ⟨fun _ _ _ h1 h2 => le_trans h2 h1⟩

/-- The admission loop of `_rank_recommendations`: `counts` is the
`type_counts` dict (with `.get(t, 0)` default reads), `taken` is
`len(final_recommendations)`.  The Python cap test is
`type_counts[item_type] < limit * 0.6`; the float product `limit * 0.6` is
modelled by the exact rational `limit * (3/5)`. -/
def rankGo (limit : ℕ) : List Candidate → (String → ℕ) → ℕ → List Candidate
  | [], _, _ => []
  | r :: rest, counts, taken =>
    if taken < limit ∧ (counts r.item_type : ℚ) < (limit : ℚ) * (3/5) then
      r :: rankGo limit rest
        (fun t => if t = r.item_type then counts t + 1 else counts t) (taken + 1)
    else
      rankGo limit rest counts taken

/-- `_rank_recommendations`: stable sort by score descending, then the
diversity-capped admission walk. -/
def rankRecommendations (recommendations : List Candidate) (limit : ℕ) : List Candidate :=
  rankGo limit (List.insertionSort scoreGE recommendations) (fun _ => 0) 0

/-- `_recommend_courses` after per-course scoring: sort the scored
candidates by score descending and keep the first `limit`
(`course_scores.sort(key=..., reverse=True); return course_scores[:limit]`). -/
def recommendCourses (course_scores : List Candidate) (limit : ℕ) : List Candidate :=
  (List.insertionSort scoreGE course_scores).take limit

/-- `_recommend_news` after per-article scoring: same sort-and-truncate. -/
def recommendNews (news_scores : List Candidate) (limit : ℕ) : List Candidate :=
  (List.insertionSort scoreGE news_scores).take limit

/-- The candidate pipeline of `get_recommendations` (lines 45-57): request
`limit // 2` course candidates and `limit // 2` news candidates, concatenate,
and rank with the full `limit`. -/
def getRecommendations (course_scores news_scores : List Candidate) (limit : ℕ) :
    List Candidate :=
  rankRecommendations
    (recommendCourses course_scores (limit / 2) ++ recommendNews news_scores (limit / 2))
    limit

/-! ## Preferred categories (`RecommendationService._get_preferred_categories`,
`recommendation.py` lines 365-377).  The rows come from the learning-progress
query of `_get_user_profile` (lines 88-97), which groups by
`(category, level)`, so one category may span several rows. -/

/-- One row of the learning-progress aggregate (`GROUP BY c.category, c.level`). -/
structure LearningRow where
  category : String
  level : String
  completed_courses : ℕ
deriving DecidableEq, Repr

/-- Descending comparison on `completed_courses` for
`sorted(learning_data, key=lambda x: x['completed_courses'], reverse=True)`. -/
def completedGE (a b : LearningRow) : Prop := b.completed_courses ≤ a.completed_courses

instance : DecidableRel completedGE :=
  fun a b => inferInstanceAs (Decidable (b.completed_courses ≤ a.completed_courses))

instance : IsTotal LearningRow completedGE :=
  ⟨fun a b => Nat.le_total b.completed_courses a.completed_courses⟩

instance : IsTrans LearningRow completedGE := ⟨fun _ _ _ h1 h2 => le_trans h2 h1⟩

/-- `_get_preferred_categories`: empty history gives `[]`; otherwise sort the
rows by `completed_courses` descending (stable) and return the categories of
the first three rows. -/
def getPreferredCategories (learning_data : List LearningRow) : List String :=
  if learning_data = [] then []
  else ((List.insertionSort completedGE learning_data).take 3).map LearningRow.category

/-! ## Cache-failure control flow (`analyze_sentiment`, `sentiment.py`
lines 85-144; `get_recommendations` / `_get_user_profile` /
`_cache_recommendations`, `recommendation.py` lines 32-67, 69-125, 401-414).
An external call that either returns a value or raises is modelled as
`CallResult`. -/

/-- Outcome of an external (cache) call: a value, or a raised exception. -/
inductive CallResult (α : Type) where
  | ok (value : α)
  | raised
deriving DecidableEq, Repr

/-- `_cache_recommendations`: the `setex` call is wrapped in
`try ... except` that only logs, so a raising cache write is swallowed. -/
def cacheRecommendationsFlow (cacheSet : CallResult Unit) : CallResult Unit :=
  match cacheSet with
  | .ok _ => .ok ()
  | .raised => .ok ()

/-- The cache-relevant control flow of `analyze_sentiment`: read the cache,
return the cached verdict on a hit, otherwise compute, write the cache and
return the computed verdict.  The whole body sits in one
`try ... except ... raise` block, so a raising cache read or write
propagates to the caller. -/
def analyzeSentimentFlow {α : Type} (cacheGet : CallResult (Option α))
    (computed : α) (cacheSet : CallResult Unit) : CallResult α :=
  match cacheGet with
  | .raised => .raised
  | .ok (some cached) => .ok cached
  | .ok none =>
    match cacheSet with
    | .raised => .raised
    | .ok _ => .ok computed

/-- The cache-relevant control flow of `get_recommendations`: the profile
cache read and write inside `_get_user_profile` are unguarded (a raise
escapes through the `except ... raise` of `get_recommendations`), while the
final recommendation-cache write goes through `_cache_recommendations`,
which swallows failures. -/
def getRecommendationsFlow {β γ : Type} (profileCacheGet : CallResult (Option β))
    (computedProfile : β) (profileCacheSet : CallResult Unit)
    (computeRecs : β → γ) (recCacheSet : CallResult Unit) : CallResult γ :=
  match profileCacheGet with
  | .raised => .raised
  | .ok (some cachedProfile) =>
    match cacheRecommendationsFlow recCacheSet with
    | .raised => .raised
    | .ok _ => .ok (computeRecs cachedProfile)
  | .ok none =>
    match profileCacheSet with
    | .raised => .raised
    | .ok _ =>
      match cacheRecommendationsFlow recCacheSet with
      | .raised => .raised
      | .ok _ => .ok (computeRecs computedProfile)

/-! ## Helper lemmas about the ranking walk -/

/-- The admission walk only ever drops candidates, in order. -/
lemma rankGo_sublist (limit : ℕ) (l : List Candidate) (counts : String → ℕ) (taken : ℕ) :
    (rankGo limit l counts taken).Sublist l := by
  induction l generalizing counts taken with
  | nil => simp [rankGo]
  | cons r rest ih =>
    unfold rankGo
    split
    · exact (ih _ _).cons₂ r
    · exact (ih _ _).cons r

/-- The walk admits at most `limit - taken` further candidates. -/
lemma rankGo_length_le (limit : ℕ) (l : List Candidate) (counts : String → ℕ) (taken : ℕ) :
    (rankGo limit l counts taken).length ≤ limit - taken := by
  induction l generalizing counts taken with
  | nil => simp [rankGo]
  | cons r rest ih =>
    unfold rankGo
    split
    case isTrue h =>
      have := ih (fun t => if t = r.item_type then counts t + 1 else counts t) (taken + 1)
      simp only [List.length_cons]
      omega
    case isFalse h => exact le_trans (ih counts taken) (by omega)

/-- The integer reading of the Python cap test
`type_counts[t] < limit * 0.6`. -/
lemma rank_cap_iff (k limit : ℕ) :
    ((k : ℚ) < (limit : ℚ) * (3/5)) ↔ k < ⌈(limit : ℚ) * (3/5)⌉₊ :=
  (Nat.lt_ceil).symm

/-- Per-type count of the admission walk: starting from a running count of
`counts t`, at most `⌈limit * 3/5⌉₊ - counts t` candidates of type `t` are
admitted. -/
lemma rankGo_type_count_le (limit : ℕ) (l : List Candidate) (counts : String → ℕ)
    (taken : ℕ) (t : String) :
    ((rankGo limit l counts taken).filter (fun r => r.item_type = t)).length
      ≤ ⌈(limit : ℚ) * (3/5)⌉₊ - counts t := by
  induction l generalizing counts taken with
  | nil => simp [rankGo]
  | cons r rest ih =>
    unfold rankGo
    split
    case isTrue h =>
      have hcap : counts r.item_type < ⌈(limit : ℚ) * (3/5)⌉₊ :=
        (rank_cap_iff _ _).mp h.2
      by_cases ht : r.item_type = t
      · subst ht
        have hrec := ih (fun u => if u = r.item_type then counts u + 1 else counts u)
          (taken + 1)
        simp only [eq_self_iff_true, if_true] at hrec
        simp only [List.filter_cons, decide_eq_true_eq, eq_self_iff_true, if_true,
          List.length_cons]
        omega
      · have hrec := ih (fun u => if u = r.item_type then counts u + 1 else counts u)
          (taken + 1)
        have hne : ¬ (t = r.item_type) := fun hust => ht hust.symm
        simp only [if_neg hne] at hrec
        simpa only [List.filter_cons, decide_eq_true_eq, if_neg ht] using hrec
    case isFalse h => exact ih counts taken

/-- **C2.** For every candidate list and every limit, `_rank_recommendations`
returns at most `limit` items with at most `⌈limit * 0.6⌉` items of any single
`item_type` (the float literal `0.6` is modelled as `3/5`); the returned items
are taken, in order, from the candidates sorted by score descending with a
stable sort (sorted by `scoreGE` and a permutation of the input), a candidate
being admitted only while its type's running count is below the cap. -/
theorem rank_respects_limit_and_diversity (cands : List Candidate) (limit : ℕ) :
    (rankRecommendations cands limit).length ≤ limit
    ∧ (∀ t, ((rankRecommendations cands limit).filter
        (fun r => r.item_type = t)).length ≤ ⌈(limit : ℚ) * (3/5)⌉₊)
    ∧ (rankRecommendations cands limit).Sublist (List.insertionSort scoreGE cands)
    ∧ (List.insertionSort scoreGE cands).Perm cands
    ∧ List.Sorted scoreGE (List.insertionSort scoreGE cands) := by
  refine ⟨?_, ?_, ?_, ?_, ?_⟩
  · have := rankGo_length_le limit (List.insertionSort scoreGE cands) (fun _ => 0) 0
    simpa [rankRecommendations] using this
  · intro t
    have := rankGo_type_count_le limit (List.insertionSort scoreGE cands)
      (fun _ => 0) 0 t
    simpa [rankRecommendations] using this
  · exact rankGo_sublist _ _ _ _
  · exact List.perm_insertionSort scoreGE cands
  · exact List.sorted_insertionSort scoreGE cands

/-- **C3, counterexample.**  `_rank_recommendations` performs no
deduplication: when the input candidate list itself contains two candidates
with the same `item_id`, both survive ranking, so the returned set does
contain a duplicate `item_id`, contrary to the claim as stated for arbitrary
input lists. -/
theorem rank_duplicate_item_ids_cx :
    (rankRecommendations [⟨1, "course", 1⟩, ⟨1, "course", 1⟩] 5).map Candidate.item_id
      = [1, 1]
    ∧ ¬ ((rankRecommendations [⟨1, "course", 1⟩, ⟨1, "course", 1⟩] 5).map
        Candidate.item_id).Nodup := by
  constructor
  · norm_num [rankRecommendations, rankGo, List.insertionSort, List.orderedInsert, scoreGE]
  · norm_num [rankRecommendations, rankGo, List.insertionSort, List.orderedInsert, scoreGE]

/-- **C3, amended.**  The ranked set never exceeds the requested limit, and
it contains no duplicate `item_id` provided the input candidate list itself
has pairwise-distinct `item_id`s (the ranker only selects a subsequence of a
permutation of its input and never removes duplicates itself). -/
theorem rank_limit_and_nodup (cands : List Candidate) (limit : ℕ) :
    (rankRecommendations cands limit).length ≤ limit
    ∧ ((cands.map Candidate.item_id).Nodup →
        ((rankRecommendations cands limit).map Candidate.item_id).Nodup) := by
  constructor
  · have := rankGo_length_le limit (List.insertionSort scoreGE cands) (fun _ => 0) 0
    simpa [rankRecommendations] using this
  · intro h
    have hperm : ((List.insertionSort scoreGE cands).map Candidate.item_id).Nodup := by
      exact ((List.perm_insertionSort scoreGE cands).map Candidate.item_id).nodup_iff.mpr h
    have hsub : ((rankRecommendations cands limit).map Candidate.item_id).Sublist
        ((List.insertionSort scoreGE cands).map Candidate.item_id) :=
      (rankGo_sublist limit (List.insertionSort scoreGE cands) (fun _ => 0) 0).map
        Candidate.item_id
    exact hperm.sublist hsub

/-- Witness for `rank_limit_and_nodup` at a concrete candidate list with
distinct ids. -/
theorem rank_limit_and_nodup_witness :
    ((rankRecommendations [⟨1, "course", 1⟩, ⟨2, "news", 1/2⟩] 3).map
      Candidate.item_id).Nodup :=
  (rank_limit_and_nodup [⟨1, "course", 1⟩, ⟨2, "news", 1/2⟩] 3).2 (by decide)

/-- **C10.**  `get_recommendations` requests at most `limit // 2` course
candidates and at most `limit // 2` news candidates, so the ranked result has
length at most `2 * (limit // 2)`; for every odd `limit` the result is
therefore strictly shorter than `limit`, regardless of how many candidates
are available. -/
theorem get_recommendations_halved_limit (course_scores news_scores : List Candidate)
    (limit : ℕ) :
    (recommendCourses course_scores (limit / 2)).length ≤ limit / 2
    ∧ (recommendNews news_scores (limit / 2)).length ≤ limit / 2
    ∧ (getRecommendations course_scores news_scores limit).length ≤ 2 * (limit / 2)
    ∧ (limit % 2 = 1 → (getRecommendations course_scores news_scores limit).length < limit) := by
  have hc : (recommendCourses course_scores (limit / 2)).length ≤ limit / 2 :=
    List.length_take_le _ _
  have hn : (recommendNews news_scores (limit / 2)).length ≤ limit / 2 :=
    List.length_take_le _ _
  have hlen : (getRecommendations course_scores news_scores limit).length ≤ 2 * (limit / 2) := by
    have hsub := rankGo_sublist limit
      (List.insertionSort scoreGE
        (recommendCourses course_scores (limit / 2) ++ recommendNews news_scores (limit / 2)))
      (fun _ => 0) 0
    have h1 := hsub.length_le
    rw [List.length_insertionSort, List.length_append] at h1
    calc (getRecommendations course_scores news_scores limit).length
        ≤ (recommendCourses course_scores (limit / 2)).length
          + (recommendNews news_scores (limit / 2)).length := h1
      _ ≤ 2 * (limit / 2) := by omega
  exact ⟨hc, hn, hlen, fun hodd => by omega⟩

/-- Witness for `get_recommendations_halved_limit` at odd limit 7 with more
than 7 high-scoring candidates of both types available. -/
theorem get_recommendations_halved_limit_witness :
    (7 : ℕ) % 2 = 1
    ∧ (getRecommendations
        [⟨1, "course", 1⟩, ⟨2, "course", 1⟩, ⟨3, "course", 1⟩, ⟨4, "course", 1⟩]
        [⟨5, "news", 1⟩, ⟨6, "news", 1⟩, ⟨7, "news", 1⟩, ⟨8, "news", 1⟩] 7).length < 7 :=
  ⟨by decide,
   (get_recommendations_halved_limit
      [⟨1, "course", 1⟩, ⟨2, "course", 1⟩, ⟨3, "course", 1⟩, ⟨4, "course", 1⟩]
      [⟨5, "news", 1⟩, ⟨6, "news", 1⟩, ⟨7, "news", 1⟩, ⟨8, "news", 1⟩] 7).2.2.2
    (by decide)⟩

/-- **C9, counterexample.**  The learning-progress rows are grouped by
`(category, level)` and `_get_preferred_categories` neither aggregates
counts per category nor deduplicates: a category whose completions are
split across two levels occupies two of the three slots, so the result
contains a repeated category, contrary to the claim. -/
theorem preferred_categories_duplicate_cx :
    getPreferredCategories
        [⟨"stocks", "beginner", 5⟩, ⟨"stocks", "advanced", 4⟩, ⟨"bonds", "beginner", 3⟩]
      = ["stocks", "stocks", "bonds"]
    ∧ ¬ (getPreferredCategories
        [⟨"stocks", "beginner", 5⟩, ⟨"stocks", "advanced", 4⟩, ⟨"bonds", "beginner", 3⟩]).Nodup := by
  constructor
  · decide
  · decide

/-- **C9, amended.**  `preferred_categories` is the category column of the
first three rows of the per-`(category, level)` learning rows sorted by the
row's own `completed_courses` descending (a stable sort, so ties keep
first-seen order); it has at most 3 entries, but counts are not aggregated
per category and a category may appear more than once when its completions
are split across levels. -/
theorem preferred_categories_top3_rows (learning_data : List LearningRow) :
    (getPreferredCategories learning_data).length ≤ 3
    ∧ ∃ sortedRows : List LearningRow,
        sortedRows.Perm learning_data
        ∧ List.Sorted completedGE sortedRows
        ∧ getPreferredCategories learning_data
            = (sortedRows.take 3).map LearningRow.category := by
  by_cases h : learning_data = []
  · subst h
    exact ⟨by simp [getPreferredCategories], [], List.Perm.refl _, List.sorted_nil, by
      simp [getPreferredCategories]⟩
  · refine ⟨?_, List.insertionSort completedGE learning_data,
      List.perm_insertionSort completedGE learning_data,
      List.sorted_insertionSort completedGE learning_data, ?_⟩
    · simp only [getPreferredCategories, if_neg h, List.length_map]
      exact List.length_take_le _ _
    · simp [getPreferredCategories, if_neg h]

/-! ## Helper lemmas about text chunking -/

/-- Stripping whitespace never lengthens a chunk. -/
lemma stripEnds_length_le (l : List Char) : (stripEnds l).length ≤ l.length := by
  unfold stripEnds
  rw [List.length_reverse]
  calc ((l.dropWhile Char.isWhitespace).reverse.dropWhile Char.isWhitespace).length
      ≤ (l.dropWhile Char.isWhitespace).reverse.length :=
        (List.dropWhile_sublist _).length_le
    _ = (l.dropWhile Char.isWhitespace).length := List.length_reverse _
    _ ≤ l.length := (List.dropWhile_sublist _).length_le

/-- Every chunk emitted by the packing loop either fits in
`maxLength + 1` characters (the `+ 1` being the joining space that the
admission test does not count) or is a stripped single input sentence, or is
the stripped pending chunk. -/
lemma splitGo_chunk_cases (maxLength : ℕ) (sentences : List (List Char)) :
    ∀ current : List Char, ∀ c ∈ splitGo maxLength sentences current,
      c.length ≤ maxLength + 1 ∨ (∃ s ∈ sentences, c = stripEnds s)
        ∨ c = stripEnds current := by
  induction sentences with
  | nil =>
    intro current c hc
    unfold splitGo at hc
    split at hc
    · simp at hc
    · right; right; simpa using hc
  | cons s rest ih =>
    intro current c hc
    unfold splitGo at hc
    split at hc
    case isTrue hfit =>
      rcases ih _ c hc with h | ⟨t, ht, hct⟩ | hcur
      · exact Or.inl h
      · exact Or.inr (Or.inl ⟨t, List.mem_cons_of_mem s ht, hct⟩)
      · by_cases hemp : current = []
        · rw [if_pos hemp] at hcur
          exact Or.inr (Or.inl ⟨s, List.mem_cons_self s rest, hcur⟩)
        · rw [if_neg hemp] at hcur
          left
          have hlen : (current ++ ' ' :: s).length ≤ maxLength + 1 := by
            have := hfit
            simp only [List.length_append, List.length_cons] at this ⊢
            omega
          calc c.length = (stripEnds (current ++ ' ' :: s)).length := by rw [hcur]
            _ ≤ (current ++ ' ' :: s).length := stripEnds_length_le _
            _ ≤ maxLength + 1 := hlen
    case isFalse hfit =>
      split at hc
      case isTrue hemp =>
        rcases ih _ c hc with h | ⟨t, ht, hct⟩ | hcur
        · exact Or.inl h
        · exact Or.inr (Or.inl ⟨t, List.mem_cons_of_mem s ht, hct⟩)
        · exact Or.inr (Or.inl ⟨s, List.mem_cons_self s rest, hcur⟩)
      case isFalse hemp =>
        rcases List.mem_cons.mp hc with hcur | hmem
        · exact Or.inr (Or.inr hcur)
        · rcases ih _ c hmem with h | ⟨t, ht, hct⟩ | hcur
          · exact Or.inl h
          · exact Or.inr (Or.inl ⟨t, List.mem_cons_of_mem s ht, hct⟩)
          · exact Or.inr (Or.inl ⟨s, List.mem_cons_self s rest, hcur⟩)

/-- **C6, amended.**  `_split_text` is a pure function (hence deterministic)
that always returns at least one chunk, even on empty input (the fallback
`[text[:max_length]]` makes the output never empty, so an empty sequence is
never produced at all); sentences are packed greedily in order, but because
the admission test `len(current_chunk + sentence) <= max_length` does not
count the joining space, a multi-sentence chunk may exceed `max_len` by one
character: every chunk either has length at most `max_len + 1` or is a
single (stripped) input sentence, which may be arbitrarily long. -/
theorem split_text_chunk_bounds (text : List Char) (sentences : List (List Char))
    (maxLength : ℕ) :
    splitText text sentences maxLength ≠ []
    ∧ ∀ c ∈ splitText text sentences maxLength,
        c.length ≤ maxLength + 1 ∨ ∃ s ∈ sentences, c = stripEnds s := by
  unfold splitText
  by_cases h : splitGo maxLength sentences [] = []
  · simp only [h, if_pos rfl]
    refine ⟨by simp, ?_⟩
    intro c hc
    left
    have : c = text.take maxLength := by simpa using hc
    rw [this]
    exact le_trans (List.length_take_le _ _) (Nat.le_succ _)
  · simp only [if_neg h]
    refine ⟨h, ?_⟩
    intro c hc
    rcases splitGo_chunk_cases maxLength sentences [] c hc with hlen | hsent | hcur
    · exact Or.inl hlen
    · exact Or.inr hsent
    · left
      rw [hcur]
      simp [stripEnds]

/-- Witness for `split_text_chunk_bounds` at a concrete one-sentence text. -/
theorem split_text_chunk_bounds_witness :
    splitText ['h', 'i'] [['h', 'i']] 5 ≠ []
    ∧ ((['h', 'i'] : List Char).length ≤ 5 + 1
        ∨ ∃ s ∈ [['h', 'i']], (['h', 'i'] : List Char) = stripEnds s) :=
  ⟨(split_text_chunk_bounds ['h', 'i'] [['h', 'i']] 5).1,
   (split_text_chunk_bounds ['h', 'i'] [['h', 'i']] 5).2 ['h', 'i'] (by decide)⟩

/-- **C6, counterexample.**  With `max_len = 6` and the two sentences
`"Ab."` and `"Cd."` (each of length 3 ≤ 6), the greedy check
`len("Ab." + "Cd.") = 6 ≤ 6` passes, but the chunk actually built is
`"Ab. Cd."` of length 7 > 6: a multi-sentence chunk exceeds `max_len`,
which the claim only allows for a single over-long sentence. -/
theorem split_text_overlong_chunk_cx :
    splitText [] [['A', 'b', '.'], ['C', 'd', '.']] 6
      = [['A', 'b', '.', ' ', 'C', 'd', '.']]
    ∧ (['A', 'b', '.', ' ', 'C', 'd', '.'] : List Char).length = 7
    ∧ (['A', 'b', '.'] : List Char).length ≤ 6
    ∧ (['C', 'd', '.'] : List Char).length ≤ 6 :=
  ⟨by decide, by decide, by decide, by decide⟩

/-! ## Helper lemmas about the ensemble combiner -/

lemma foldl_add_eq {α : Type} (f : α → ℚ) (l : List α) (a : ℚ) :
    l.foldl (fun acc x => acc + f x) a = a + (l.map f).sum := by
  induction l generalizing a with
  | nil => simp
  | cons x xs ih => simp only [List.foldl_cons, List.map_cons, List.sum_cons, ih]; ring

/-- The sum of the fixed weights of the adapters that ran (the divisor of the
final normalization). -/
def weightsUsed (r : AdapterResults) : ℚ :=
  ((presentModels r).map (fun p => ensembleWeight p.1)).sum

/-- The pre-division ensemble score of one label: the sum of
`weight * confidence` over the adapters reporting that label. -/
def labelScore (r : AdapterResults) (s : Sentiment) : ℚ :=
  (((presentModels r).filter (fun p => p.2.sentiment = s)).map
    (fun p => ensembleWeight p.1 * p.2.confidence)).sum

lemma sentimentScore_eq_labelScore (r : AdapterResults) (s : Sentiment) :
    sentimentScore r s = labelScore r s := by
  unfold sentimentScore labelScore
  rw [foldl_add_eq, zero_add]

lemma totalWeight_eq_weightsUsed (r : AdapterResults) :
    totalWeight r = weightsUsed r := by
  unfold totalWeight weightsUsed
  rw [foldl_add_eq, zero_add]

lemma ensembleWeight_pos (name : String) : 0 < ensembleWeight name := by
  unfold ensembleWeight
  split <;> norm_num

lemma weightsUsed_pos (r : AdapterResults) (h : presentModels r ≠ []) :
    0 < weightsUsed r := by
  unfold weightsUsed
  match hm : presentModels r with
  | [] => exact absurd hm h
  | p :: ps =>
    simp only [List.map_cons, List.sum_cons]
    have h1 := ensembleWeight_pos p.1
    have h2 : 0 ≤ (ps.map (fun q => ensembleWeight q.1)).sum := by
      apply List.sum_nonneg
      intro x hx
      rcases List.mem_map.mp hx with ⟨q, _, rfl⟩
      exact (ensembleWeight_pos q.1).le
    linarith

/-- Hypothesis of the unit-interval claims: every adapter that ran reported
a confidence in `[0, 1]`. -/
def ValidConfidences (r : AdapterResults) : Prop :=
  ∀ p ∈ presentModels r, 0 ≤ p.2.confidence ∧ p.2.confidence ≤ 1

lemma labelScore_nonneg (r : AdapterResults) (s : Sentiment)
    (h : ∀ p ∈ presentModels r, 0 ≤ p.2.confidence) : 0 ≤ labelScore r s := by
  apply List.sum_nonneg
  intro x hx
  rcases List.mem_map.mp hx with ⟨p, hp, rfl⟩
  exact mul_nonneg (ensembleWeight_pos p.1).le (h p (List.mem_of_mem_filter hp))

lemma labelScore_le_weightsUsed (r : AdapterResults) (s : Sentiment)
    (h : ∀ p ∈ presentModels r, p.2.confidence ≤ 1) :
    labelScore r s ≤ weightsUsed r := by
  unfold labelScore weightsUsed
  calc (((presentModels r).filter (fun p => p.2.sentiment = s)).map
        (fun p => ensembleWeight p.1 * p.2.confidence)).sum
      ≤ (((presentModels r).filter (fun p => p.2.sentiment = s)).map
        (fun p => ensembleWeight p.1)).sum := by
        apply List.sum_le_sum
        intro p hp
        have hc := h p (List.mem_of_mem_filter hp)
        have hw := (ensembleWeight_pos p.1).le
        calc ensembleWeight p.1 * p.2.confidence
            ≤ ensembleWeight p.1 * 1 := by
              exact mul_le_mul_of_nonneg_left hc hw
          _ = ensembleWeight p.1 := mul_one _
    _ ≤ ((presentModels r).map (fun p => ensembleWeight p.1)).sum := by
        apply List.Sublist.sum_le_sum
        · exact (List.filter_sublist _).map _
        · intro a ha
          rcases List.mem_map.mp ha with ⟨q, _, rfl⟩
          exact (ensembleWeight_pos q.1).le

/-- Characterization of the ensemble combiner on a non-empty adapter set:
confidence is the normalized score of the final label, the final label
attains the maximal score, and ties are broken in the stable preference
order positive, negative, neutral. -/
lemma createEnsembleResult_argmax (r : AdapterResults)
    (h : presentModels r ≠ []) :
    (createEnsembleResult r).confidence
        = labelScore r (createEnsembleResult r).sentiment / weightsUsed r
    ∧ (∀ s, labelScore r s ≤ labelScore r (createEnsembleResult r).sentiment)
    ∧ ((createEnsembleResult r).sentiment = .positive
        ∨ ((createEnsembleResult r).sentiment = .negative
            ∧ labelScore r .positive < labelScore r .negative)
        ∨ ((createEnsembleResult r).sentiment = .neutral
            ∧ labelScore r .positive < labelScore r .neutral
            ∧ labelScore r .negative < labelScore r .neutral)) := by
  have hW : 0 < weightsUsed r := weightsUsed_pos r h
  have htw : 0 < totalWeight r := by rw [totalWeight_eq_weightsUsed]; exact hW
  unfold createEnsembleResult
  rw [if_neg h]
  simp only [htw, if_true, sentimentScore_eq_labelScore, totalWeight_eq_weightsUsed, hW]
  by_cases c1 : labelScore r .negative / weightsUsed r ≤ labelScore r .positive / weightsUsed r
      ∧ labelScore r .neutral / weightsUsed r ≤ labelScore r .positive / weightsUsed r
  · rw [if_pos c1]
    have h1 : labelScore r .negative ≤ labelScore r .positive :=
      (div_le_div_iff_of_pos_right hW).mp c1.1
    have h2 : labelScore r .neutral ≤ labelScore r .positive :=
      (div_le_div_iff_of_pos_right hW).mp c1.2
    refine ⟨rfl, ?_, Or.inl rfl⟩
    intro s
    cases s
    · exact le_refl _
    · exact h1
    · exact h2
  · rw [if_neg c1]
    push_neg at c1
    by_cases c2 : labelScore r .neutral / weightsUsed r ≤ labelScore r .negative / weightsUsed r
    · rw [if_pos c2]
      have h2 : labelScore r .neutral ≤ labelScore r .negative :=
        (div_le_div_iff_of_pos_right hW).mp c2
      have h1 : labelScore r .positive < labelScore r .negative := by
        rcases lt_or_le (labelScore r .negative / weightsUsed r)
            (labelScore r .positive / weightsUsed r) with hlt | hle
        · have := c1 hlt.le
          have h3 : labelScore r .positive < labelScore r .neutral :=
            (div_lt_div_iff_of_pos_right hW).mp this
          exact lt_of_lt_of_le h3 h2
        · rcases eq_or_lt_of_le hle with heq | hlt2
          · have := c1 (le_of_eq heq.symm)
            have h3 : labelScore r .positive < labelScore r .neutral :=
              (div_lt_div_iff_of_pos_right hW).mp this
            exact lt_of_lt_of_le h3 h2
          · exact (div_lt_div_iff_of_pos_right hW).mp hlt2
      refine ⟨rfl, ?_, Or.inr (Or.inl ⟨rfl, h1⟩)⟩
      intro s
      cases s
      · exact h1.le
      · exact le_refl _
      · exact h2
    · rw [if_neg c2]
      push_neg at c2
      have h2 : labelScore r .negative < labelScore r .neutral :=
        (div_lt_div_iff_of_pos_right hW).mp c2
      have h1 : labelScore r .positive < labelScore r .neutral := by
        rcases lt_or_le (labelScore r .negative / weightsUsed r)
            (labelScore r .positive / weightsUsed r) with hlt | hle
        · have := c1 hlt.le
          exact (div_lt_div_iff_of_pos_right hW).mp this
        · have h3 := (div_le_div_iff_of_pos_right hW).mp hle
          exact lt_of_le_of_lt h3 h2
      refine ⟨rfl, ?_, Or.inr (Or.inr ⟨rfl, h1, h2⟩)⟩
      intro s
      cases s
      · exact h1.le
      · exact h2.le
      · exact le_refl _

/-- **C1, amended.**  For every set of per-adapter results from the four
adapters, the ensemble combiner computes `score[label]` as the sum of
`weight * confidence` over the adapters reporting that label, with fixed
weights finbert 0.40, vader 0.25, general 0.20, rule_based 0.15, the
normalization divisor being the sum of the weights of only the adapters
that actually ran; the final label is the argmax of the scores with ties
broken by the stable preference order positive, negative, neutral, and the
final confidence is `score[final label]` divided by the sum of the weights
used.  (The original claim's parenthetical — that the pre-division scores
sum exactly to the sum of the weights used — is dropped: the scores sum to
the weighted sum of the confidences, see the counterexample.) -/
theorem ensemble_combiner_weighted_argmax (r : AdapterResults)
    (h : presentModels r ≠ []) :
    (createEnsembleResult r).confidence
        = labelScore r (createEnsembleResult r).sentiment / weightsUsed r
    ∧ (∀ s, labelScore r s ≤ labelScore r (createEnsembleResult r).sentiment)
    ∧ ((createEnsembleResult r).sentiment = .positive
        ∨ ((createEnsembleResult r).sentiment = .negative
            ∧ labelScore r .positive < labelScore r .negative)
        ∨ ((createEnsembleResult r).sentiment = .neutral
            ∧ labelScore r .positive < labelScore r .neutral
            ∧ labelScore r .negative < labelScore r .neutral)) :=
  createEnsembleResult_argmax r h

/-- Witness for `ensemble_combiner_weighted_argmax` at a single-adapter
result set. -/
theorem ensemble_combiner_weighted_argmax_witness :
    (createEnsembleResult ⟨none, some ⟨.positive, 3/4⟩, none, none⟩).confidence
        = labelScore ⟨none, some ⟨.positive, 3/4⟩, none, none⟩
            (createEnsembleResult ⟨none, some ⟨.positive, 3/4⟩, none, none⟩).sentiment
          / weightsUsed ⟨none, some ⟨.positive, 3/4⟩, none, none⟩
    ∧ labelScore ⟨none, some ⟨.positive, 3/4⟩, none, none⟩ .neutral
        ≤ labelScore ⟨none, some ⟨.positive, 3/4⟩, none, none⟩
            (createEnsembleResult ⟨none, some ⟨.positive, 3/4⟩, none, none⟩).sentiment :=
  ⟨(ensemble_combiner_weighted_argmax ⟨none, some ⟨.positive, 3/4⟩, none, none⟩
      (by decide)).1,
   (ensemble_combiner_weighted_argmax ⟨none, some ⟨.positive, 3/4⟩, none, none⟩
      (by decide)).2.1 .neutral⟩

/-- **C1, counterexample.**  With two of the four adapters reporting
(vader: neutral 0.5, finbert: positive 0.5), the pre-division scores sum to
`0.4*0.5 + 0.25*0.5 = 13/40`, not to the sum `13/20` of the two weights
used: the claim's parenthetical that the combined scores sum exactly to the
sum of the weights used before the final division is false whenever some
confidence is below 1. -/
theorem ensemble_prenorm_sum_cx :
    presentModels ⟨some ⟨.neutral, 1/2⟩, some ⟨.positive, 1/2⟩, none, none⟩ ≠ []
    ∧ labelScore ⟨some ⟨.neutral, 1/2⟩, some ⟨.positive, 1/2⟩, none, none⟩ .positive
        + labelScore ⟨some ⟨.neutral, 1/2⟩, some ⟨.positive, 1/2⟩, none, none⟩ .negative
        + labelScore ⟨some ⟨.neutral, 1/2⟩, some ⟨.positive, 1/2⟩, none, none⟩ .neutral
        = 13/40
    ∧ weightsUsed ⟨some ⟨.neutral, 1/2⟩, some ⟨.positive, 1/2⟩, none, none⟩ = 13/20
    ∧ ((13 : ℚ)/40) ≠ 13/20 := by
  refine ⟨by decide, ?_, ?_, by norm_num⟩
  · simp [labelScore, presentModels, modelOrder, ensembleWeight]
    norm_num
  · simp [weightsUsed, presentModels, modelOrder, ensembleWeight]
    norm_num

/-- **C7, counterexample.**  When no adapter contributes a sentiment, the
dict literal returned on line 291 of `sentiment.py` is exactly
`{'sentiment': 'neutral', 'confidence': 0.5}`: the full output is exhibited
here and every field beyond the label and the confidence is absent — there
is no explicit flag stating that no model succeeded, contrary to the
claim. -/
theorem ensemble_total_failure_no_flag_cx :
    createEnsembleResult ⟨none, none, none, none⟩
      = ⟨.neutral, 1/2, none, none, none⟩ := rfl

/-- **C7, amended.**  If no adapter contributes a sentiment, the ensemble
result is the bare `{neutral, 0.5}` with no explicit failure flag; it is
nevertheless distinguishable from every ordinary verdict because any run
with at least one adapter carries the `models_used` key (together with
`scores` and `total_weight`), which the total-failure fallback lacks. -/
theorem ensemble_total_failure_distinguishable (r : AdapterResults)
    (h : presentModels r ≠ []) :
    createEnsembleResult ⟨none, none, none, none⟩
      = ⟨.neutral, 1/2, none, none, none⟩
    ∧ (createEnsembleResult r).models_used ≠ none := by
  refine ⟨rfl, ?_⟩
  unfold createEnsembleResult
  rw [if_neg h]
  simp

/-- Witness for `ensemble_total_failure_distinguishable` at a one-adapter
result set. -/
theorem ensemble_total_failure_distinguishable_witness :
    createEnsembleResult ⟨none, none, none, none⟩
      = ⟨.neutral, 1/2, none, none, none⟩
    ∧ (createEnsembleResult ⟨some ⟨.positive, 1⟩, none, none, none⟩).models_used ≠ none :=
  ensemble_total_failure_distinguishable ⟨some ⟨.positive, 1⟩, none, none, none⟩ (by decide)

/-! ## Unit-interval bounds (claim C4) -/

lemma rules_confidence_bounds (words : List String) :
    0 ≤ (analyzeWithRules words).confidence ∧ (analyzeWithRules words).confidence ≤ 1 := by
  unfold analyzeWithRules
  by_cases h0 : countKeywords positive_keywords words + countKeywords negative_keywords words
      + countKeywords neutral_keywords words = 0
  · rw [if_pos h0]
    norm_num
  · rw [if_neg h0]
    have hT : (0 : ℚ) < ((countKeywords positive_keywords words
        + countKeywords negative_keywords words
        + countKeywords neutral_keywords words : ℕ) : ℚ) := by
      exact_mod_cast Nat.pos_of_ne_zero h0
    have hcast : ∀ k : ℕ, k ≤ countKeywords positive_keywords words
        + countKeywords negative_keywords words
        + countKeywords neutral_keywords words →
        (0 : ℚ) ≤ (k : ℚ) / ((countKeywords positive_keywords words
          + countKeywords negative_keywords words
          + countKeywords neutral_keywords words : ℕ) : ℚ)
        ∧ (k : ℚ) / ((countKeywords positive_keywords words
          + countKeywords negative_keywords words
          + countKeywords neutral_keywords words : ℕ) : ℚ) ≤ 1 := by
      intro k hk
      constructor
      · exact div_nonneg (Nat.cast_nonneg k) hT.le
      · rw [div_le_one hT]
        exact_mod_cast hk
    dsimp only
    split_ifs
    · exact hcast _ (by omega)
    · exact hcast _ (by omega)
    · constructor
      · exact le_trans (by norm_num) (le_max_right _ _)
      · exact max_le (hcast _ (by omega)).2 (by norm_num)

lemma ensemble_confidence_bounds (r : AdapterResults) (h : ValidConfidences r) :
    0 ≤ (createEnsembleResult r).confidence ∧ (createEnsembleResult r).confidence ≤ 1 := by
  by_cases hne : presentModels r = []
  · unfold createEnsembleResult
    rw [if_pos hne]
    norm_num
  · have hW := weightsUsed_pos r hne
    have hchar := createEnsembleResult_argmax r hne
    rw [hchar.1]
    constructor
    · exact div_nonneg (labelScore_nonneg r _ (fun p hp => (h p hp).1)) hW.le
    · rw [div_le_one hW]
      exact labelScore_le_weightsUsed r _ (fun p hp => (h p hp).2)

lemma course_score_bounds (course : CourseRow) (profile : UserProfileInfo)
    (preferences : Preferences) (h1 : 0 ≤ course.avg_rating.getD 0)
    (h2 : course.avg_rating.getD 0 ≤ 5) :
    0 ≤ calculateCourseScore course profile preferences
      ∧ calculateCourseScore course profile preferences ≤ 1 := by
  unfold calculateCourseScore
  constructor
  · refine le_min ?_ (by norm_num)
    have hcat : (0 : ℚ) ≤
        if course.category ∈ profile.preferred_categories then 3/10 else 0 := by
      split_ifs <;> norm_num
    have hlev : (0 : ℚ) ≤
        (if levelValue course.level = levelValue profile.skill_level then (1 : ℚ)/4
         else if levelValue course.level = levelValue profile.skill_level + 1 then 3/20
         else if levelValue course.level = levelValue profile.skill_level - 1 then 1/10
         else 0) := by
      split_ifs <;> norm_num
    have hrat : (0 : ℚ) ≤ course.avg_rating.getD 0 / 5 * (1/5) :=
      mul_nonneg (div_nonneg h1 (by norm_num)) (by norm_num)
    have hpop : (0 : ℚ) ≤ min (((course.review_count.getD 0 : ℕ) : ℚ) / 100) (1/10) :=
      le_min (div_nonneg (Nat.cast_nonneg _) (by norm_num)) (by norm_num)
    have hrec : (0 : ℚ) ≤
        (match course.days_old with
         | some d => if d < 30 then (1 : ℚ)/10 else if d < 90 then 1/20 else 0
         | none => 0) := by
      rcases course.days_old with _ | d
      · norm_num
      · simp only []
        split_ifs <;> norm_num
    have hlang : (0 : ℚ) ≤
        if preferences.preferred_language = course.language then (1 : ℚ)/10 else 0 := by
      split_ifs <;> norm_num
    exact add_nonneg (add_nonneg (add_nonneg (add_nonneg (add_nonneg hcat hlev) hrat)
      hpop) hrec) hlang
  · exact min_le_right _ _

lemma news_score_bounds (article : NewsArticle) (user_interests : List (List Char)) :
    0 ≤ calculateNewsScore article user_interests
      ∧ calculateNewsScore article user_interests ≤ 1 := by
  unfold calculateNewsScore
  constructor
  · refine le_min ?_ (by norm_num)
    have hint : (0 : ℚ) ≤ ((user_interests.filter
        (fun i => decide ((i.map Char.toLower) <:+:
          ((article.title ++ ' ' :: article.summary).map Char.toLower)))).length : ℕ)
        * (3/10 : ℚ) :=
      mul_nonneg (Nat.cast_nonneg _) (by norm_num)
    have hcatn : (0 : ℚ) ≤
        if article.category ∈ ["stocks", "mutual_funds", "trading", "investment"]
        then (1 : ℚ)/5 else 0 := by
      split_ifs <;> norm_num
    have hsent : (0 : ℚ) ≤
        (if article.sentiment = some "positive" then (1 : ℚ)/10
         else if article.sentiment = some "neutral" then 1/20 else 0) := by
      split_ifs <;> norm_num
    have hrecn : (0 : ℚ) ≤
        (match article.hours_old with
         | some h => if h < 24 then (1 : ℚ)/5 else if h < 72 then 1/10 else 0
         | none => 0) := by
      rcases article.hours_old with _ | hh
      · norm_num
      · simp only []
        split_ifs <;> norm_num
    exact add_nonneg (add_nonneg (add_nonneg hint hcatn) hsent) hrecn
  · exact min_le_right _ _

/-- **C4.**  Every confidence-bearing result lies in `[0, 1]`: the
rule-based adapter's confidence unconditionally; the ensemble verdict's
confidence whenever every adapter that ran reported a confidence in
`[0, 1]`; every course score for a non-negative average rating at most 5
(the review count is a natural number, hence non-negative); and every news
score unconditionally. -/
theorem confidences_in_unit_interval :
    (∀ words : List String,
        0 ≤ (analyzeWithRules words).confidence ∧ (analyzeWithRules words).confidence ≤ 1)
    ∧ (∀ r : AdapterResults, ValidConfidences r →
        0 ≤ (createEnsembleResult r).confidence ∧ (createEnsembleResult r).confidence ≤ 1)
    ∧ (∀ (course : CourseRow) (profile : UserProfileInfo) (preferences : Preferences),
        0 ≤ course.avg_rating.getD 0 → course.avg_rating.getD 0 ≤ 5 →
        0 ≤ calculateCourseScore course profile preferences
          ∧ calculateCourseScore course profile preferences ≤ 1)
    ∧ (∀ (article : NewsArticle) (user_interests : List (List Char)),
        0 ≤ calculateNewsScore article user_interests
          ∧ calculateNewsScore article user_interests ≤ 1) :=
  ⟨rules_confidence_bounds, ensemble_confidence_bounds, course_score_bounds,
   news_score_bounds⟩

/-- Witness for `confidences_in_unit_interval` at concrete inputs. -/
theorem confidences_in_unit_interval_witness :
    (0 ≤ (analyzeWithRules ["profit"]).confidence
        ∧ (analyzeWithRules ["profit"]).confidence ≤ 1)
    ∧ (0 ≤ (createEnsembleResult ⟨some ⟨.positive, 1⟩, none, none, none⟩).confidence
        ∧ (createEnsembleResult ⟨some ⟨.positive, 1⟩, none, none, none⟩).confidence ≤ 1)
    ∧ (0 ≤ calculateCourseScore ⟨"stocks", "beginner", some 4, some 10, some 5, some "en"⟩
          ⟨["stocks"], "beginner"⟩ ⟨some "en"⟩
        ∧ calculateCourseScore ⟨"stocks", "beginner", some 4, some 10, some 5, some "en"⟩
          ⟨["stocks"], "beginner"⟩ ⟨some "en"⟩ ≤ 1)
    ∧ (0 ≤ calculateNewsScore ⟨['h'], ['i'], "stocks", some "positive", some 3⟩ []
        ∧ calculateNewsScore ⟨['h'], ['i'], "stocks", some "positive", some 3⟩ [] ≤ 1) :=
  ⟨confidences_in_unit_interval.1 ["profit"],
   confidences_in_unit_interval.2.1 ⟨some ⟨.positive, 1⟩, none, none, none⟩
     (by unfold ValidConfidences; decide),
   confidences_in_unit_interval.2.2.1 ⟨"stocks", "beginner", some 4, some 10, some 5, some "en"⟩
     ⟨["stocks"], "beginner"⟩ ⟨some "en"⟩ (by decide) (by decide),
   confidences_in_unit_interval.2.2.2 ⟨['h'], ['i'], "stocks", some "positive", some 3⟩ []⟩

/-- **C5, amended.**  The lexicon-rule adapter counts occurrences of the
positive/negative/neutral keyword lists in the tokenized lowercase text and
returns the category with the strictly highest normalized count, with
confidence equal to that category's count divided by the total number of
sentiment-bearing words in the positive and negative branches; ties are
broken toward neutral, and in the neutral branch the confidence is
`max(neutral share, 0.5)` — not the neutral share itself; when no keyword
matches the result is `{neutral, 0.5}`. -/
theorem rules_adapter_characterization (words : List String) :
    analyzeWithRules words =
      (if countKeywords positive_keywords words + countKeywords negative_keywords words
          + countKeywords neutral_keywords words = 0 then ⟨.neutral, 1/2⟩
       else if countKeywords negative_keywords words < countKeywords positive_keywords words
          ∧ countKeywords neutral_keywords words < countKeywords positive_keywords words then
        ⟨.positive, (countKeywords positive_keywords words : ℚ)
            / ((countKeywords positive_keywords words + countKeywords negative_keywords words
                + countKeywords neutral_keywords words : ℕ) : ℚ)⟩
       else if countKeywords positive_keywords words < countKeywords negative_keywords words
          ∧ countKeywords neutral_keywords words < countKeywords negative_keywords words then
        ⟨.negative, (countKeywords negative_keywords words : ℚ)
            / ((countKeywords positive_keywords words + countKeywords negative_keywords words
                + countKeywords neutral_keywords words : ℕ) : ℚ)⟩
       else ⟨.neutral, max ((countKeywords neutral_keywords words : ℚ)
            / ((countKeywords positive_keywords words + countKeywords negative_keywords words
                + countKeywords neutral_keywords words : ℕ) : ℚ)) (1/2)⟩) := by
  unfold analyzeWithRules
  by_cases h0 : countKeywords positive_keywords words + countKeywords negative_keywords words
      + countKeywords neutral_keywords words = 0
  · rw [if_pos h0, if_pos h0]
  · rw [if_neg h0, if_neg h0]
    have hT : (0 : ℚ) < ((countKeywords positive_keywords words
        + countKeywords negative_keywords words
        + countKeywords neutral_keywords words : ℕ) : ℚ) := by
      exact_mod_cast Nat.pos_of_ne_zero h0
    dsimp only
    simp only [gt_iff_lt, div_lt_div_iff_of_pos_right hT, Nat.cast_lt]

/-- **C5, counterexample.**  On the token list `["profit", "loss"]` the
counts are positive 1, negative 1, neutral 0 (total 2); the code takes the
neutral tie branch and returns confidence `max(0/2, 0.5) = 0.5`, whereas
the claim requires the returned confidence to be the winning category's
share `0/2 = 0`. -/
theorem rules_neutral_confidence_cx :
    analyzeWithRules ["profit", "loss"] = ⟨.neutral, 1/2⟩
    ∧ countKeywords positive_keywords ["profit", "loss"] = 1
    ∧ countKeywords negative_keywords ["profit", "loss"] = 1
    ∧ countKeywords neutral_keywords ["profit", "loss"] = 0
    ∧ ((0 : ℚ) / 2) ≠ 1/2 := by
  refine ⟨?_, by decide, by decide, by decide, by norm_num⟩
  simp [analyzeWithRules, countKeywords, positive_keywords, negative_keywords,
    neutral_keywords]

/-- **C8, counterexample.**  In `analyze_sentiment` the cache read happens
inside the single `try ... except ... raise` block: when the cache `get`
raises, the whole call raises instead of returning the computed result, so
a cache failure is not treated as a cache miss there. -/
theorem sentiment_cache_error_propagates_cx :
    analyzeSentimentFlow (α := ℕ) .raised 7 (.ok ()) = .raised
    ∧ analyzeSentimentFlow (α := ℕ) .raised 7 (.ok ()) ≠ .ok 7 := by
  refine ⟨rfl, ?_⟩
  intro h
  simp [analyzeSentimentFlow] at h

/-- **C8, amended.**  Only the final recommendation-cache write is treated
as best-effort: `_cache_recommendations` swallows a raising `setex`, so
`get_recommendations` still returns the computed result whatever that write
does; but a raising cache read (in `analyze_sentiment` or in the profile
lookup of `get_recommendations`) and a raising cache write in
`analyze_sentiment` or in `_get_user_profile` all propagate to the
caller. -/
theorem cache_failure_policy :
    ∀ (α : Type) (computed : α) (cacheSet : CallResult Unit)
      (β γ : Type) (cachedProfile freshProfile : β) (computeRecs : β → γ)
      (recCacheSet : CallResult Unit),
    analyzeSentimentFlow .raised computed cacheSet = .raised
    ∧ analyzeSentimentFlow (.ok none) computed .raised = (.raised : CallResult α)
    ∧ getRecommendationsFlow (.ok (some cachedProfile)) freshProfile (.ok ())
        computeRecs recCacheSet = .ok (computeRecs cachedProfile)
    ∧ getRecommendationsFlow (.ok none) freshProfile (.ok ())
        computeRecs recCacheSet = .ok (computeRecs freshProfile)
    ∧ getRecommendationsFlow (.raised) freshProfile (.ok ())
        computeRecs recCacheSet = .raised
    ∧ getRecommendationsFlow (.ok none) freshProfile .raised
        computeRecs recCacheSet = (.raised : CallResult γ) := by
  intro α computed cacheSet β γ cachedProfile freshProfile computeRecs recCacheSet
  refine ⟨rfl, rfl, ?_, ?_, rfl, ?_⟩
  · cases recCacheSet <;> rfl
  · cases recCacheSet <;> rfl
  · cases recCacheSet <;> rfl

end InvestorShiksha
